import Mathlib

/-
  Verification of the key-selection, decryption-retry, validation and
  configuration logic of the age CLI wrapper (package cmd and main).

  Pure string and list computations are translated directly from the Go
  source.  Interactions with the outside world (running the age binary,
  stat, reading a directory, HTTP) are modelled as explicit oracle
  functions passed to the embedded procedures, so that every embedded
  function stays executable and its behaviour on concrete inputs can be
  checked by evaluation.
-/

namespace AgeCLI

/-- Embedding of Go strings.HasSuffix: byte suffix test, modelled at the
character level (equivalent on valid UTF-8 data). -/
def goHasSuffix (s suf : String) : Bool :=
  suf.data.isSuffixOf s.data

/-- Embedding of Go strings.HasPrefix, modelled at the character level. -/
def goHasPrefix (s pre : String) : Bool :=
  pre.data.isPrefixOf s.data

/-- Embedding of Go filepath.Join for the two-argument calls in the source
(no cleaning is needed for the paths the program joins). -/
def filepathJoin (dir name : String) : String :=
  dir ++ "/" ++ name

/-- Rendering of a Go string slice with the fmt verb used in decrypt.go,
which prints the elements space separated inside brackets. -/
def goSliceFmt (xs : List String) : String :=
  "[" ++ String.intercalate " " xs ++ "]"

/-- Octal rendering used by the fmt verb in the permission error of
LoadConfig. -/
def goOctal (n : Nat) : String :=
  String.mk (Nat.toDigits 8 n)

/-- Character level embedding of Go strings.TrimSpace: drop whitespace
from both ends. -/
def trimChars (l : List Char) : List Char :=
  ((l.dropWhile Char.isWhitespace).reverse.dropWhile Char.isWhitespace).reverse

/-- Splitting a character list at newline characters, the embedding of the
strings.Split call on a newline separator in encrypt.go. -/
def splitLines : List Char → List (List Char)
  | [] => [[]]
  | c :: cs =>
    if c = '\n' then [] :: splitLines cs
    else
      match splitLines cs with
      | [] => [[c]]
      | l :: ls => (c :: l) :: ls

/-- Embedding of the Config struct of cmd/config_shared.go. -/
structure Config where
  SSHKeyPath : String
  GitHubUser : String
  DefaultRecipients : List String
  CacheTTLMinutes : Int
  LogFilePath : String
deriving Repr, DecidableEq

/-- One entry of a directory listing, the part of os.DirEntry that
ScanSSHPrivateKeys inspects. -/
structure DirEntry where
  name : String
  isDir : Bool
deriving Repr, DecidableEq

/-- The part of os.FileInfo that LoadConfig inspects: the permission bits
of Mode().Perm(). -/
structure FileInfo where
  perm : Nat
deriving Repr, DecidableEq

/-- A file write request as issued by os.WriteFile in SaveConfig. -/
structure FileWrite where
  path : String
  data : String
  perm : Nat
deriving Repr, DecidableEq

/-- Errors returned by the embedded commands; each constructor corresponds
to one fmt.Errorf site in the Go source, carrying the interpolated data. -/
inductive CmdError where
  | invalidBinary (bin : String)
  | unexpectedFlag (arg : String)
  | emptyArgDecrypt
  | invalidKeyFile (key : String)
  | invalidOutputDecrypt (out : String)
  | inputRequired
  | outputRequired
  | inputMissing (msg : String)
  | scanFailed (msg : String)
  | allKeysFailed (tried : List String)
  | emptyArgEncrypt
  | invalidOutputEncrypt (out : String)
  | noRecipients
  | external (msg : String)
deriving Repr, DecidableEq

/-- The error message each CmdError constructor renders to, matching the
fmt.Errorf format strings of the Go source. -/
def renderErr : CmdError → String
  | .invalidBinary b => "invalid binary for decryption: " ++ b
  | .unexpectedFlag a => "unexpected flag in age arguments: " ++ a
  | .emptyArgDecrypt => "invalid argument for decryption: empty string"
  | .invalidKeyFile k => "invalid key file for decryption: " ++ k
  | .invalidOutputDecrypt o => "invalid output file for decryption: " ++ o
  | .inputRequired => "input file is required"
  | .outputRequired => "output file is required"
  | .inputMissing e => "input file does not exist: " ++ e
  | .scanFailed e => "could not scan ~/.ssh for private keys: " ++ e
  | .allKeysFailed tried =>
      "decryption failed: none of the tried SSH keys matched\nTried keys: "
        ++ goSliceFmt tried
  | .emptyArgEncrypt => "invalid argument for encryption: empty string"
  | .invalidOutputEncrypt o => "invalid output file for encryption: " ++ o
  | .noRecipients => "at least one recipient is required"
  | .external e => e

/-- The loop body of ScanSSHPrivateKeys (config_shared.go lines 133 to
141): skip directories, keep names starting with id_ and not ending in
.pub, joining each kept name to the directory. -/
def scanFilesGo (sshDir : String) : List DirEntry → List String
  | [] => []
  | f :: fs =>
    if f.isDir then scanFilesGo sshDir fs
    else if goHasPrefix f.name "id_" && !(goHasSuffix f.name ".pub") then
      filepathJoin sshDir f.name :: scanFilesGo sshDir fs
    else scanFilesGo sshDir fs

/-- Embedding of ScanSSHPrivateKeys: the home directory and the result of
os.ReadDir on home/.ssh are inputs; an unreadable directory propagates as
the error. -/
def ScanSSHPrivateKeys (home : String) (readDir : Except String (List DirEntry)) :
    Except String (List String) :=
  let sshDir := filepathJoin home ".ssh"
  match readDir with
  | .error e => .error e
  | .ok files => .ok (scanFilesGo sshDir files)

/-- Environment consumed by LoadConfig: results of the operating system
calls the function makes, each modelled as a pure oracle. -/
structure LoadEnv where
  userConfigDir : Except String String
  abs : String → Except String String
  stat : String → Except String FileInfo
  readFile : String → Except String String
  unmarshal : String → Except String Config
  home : String
  mkdirAll : String → Option String

/-- Replacing the LogFilePath field of a config, used for the default log
path assignment in LoadConfig. -/
def setLogPath (c : Config) (p : String) : Config :=
  ⟨c.SSHKeyPath, c.GitHubUser, c.DefaultRecipients, c.CacheTTLMinutes, p⟩

/-- Embedding of LoadConfig (config_shared.go lines 68 to 114): directory
containment check, double stat, the 0600 permission check, read,
unmarshal, and the default log path fallback. -/
def LoadConfig (env : LoadEnv) (cfgFile : String) : Except String Config :=
  match env.userConfigDir with
  | .error e => .error e
  | .ok configDir =>
    let expectedDir := filepathJoin configDir "a"
    match env.abs cfgFile with
    | .error e => .error e
    | .ok absCfgFile =>
      if !(goHasPrefix absCfgFile expectedDir) then
        .error ("config file path " ++ absCfgFile
          ++ " is not within expected config directory " ++ expectedDir)
      else
        match env.stat cfgFile with
        | .error e => .error ("config file does not exist: " ++ e)
        | .ok _ =>
          match env.stat cfgFile with
          | .error e => .error ("config file does not exist: " ++ e)
          | .ok info =>
            if info.perm ≠ 0o600 then
              .error ("config file must have 0600 permissions, got "
                ++ goOctal info.perm)
            else
              match env.readFile cfgFile with
              | .error e => .error e
              | .ok data =>
                match env.unmarshal data with
                | .error e => .error e
                | .ok cfg =>
                  if cfg.LogFilePath = "" then
                    let stateDir :=
                      filepathJoin (filepathJoin env.home ".state") "a"
                    match env.mkdirAll stateDir with
                    | some e => .error e
                    | none => .ok (setLogPath cfg (filepathJoin stateDir "cli.log"))
                  else .ok cfg

/-- Embedding of SaveConfig (config_shared.go lines 117 to 123): marshal
the config, then issue a write of the file with mode 0600.  The marshal
step is an oracle since the YAML encoder lives outside the repository. -/
def SaveConfig (marshal : Config → Except String String) (cfgFile : String)
    (cfg : Config) : Except String FileWrite :=
  match marshal cfg with
  | .error e => .error e
  | .ok data => .ok ⟨cfgFile, data, 0o600⟩

/-- The validation loop of tryDecrypt (decrypt.go lines 21 to 29), indexed
over the argument list.  The Go code treats positions 0, 2 and 4 as flag
positions, exempting position 0 through the conjunct i different from 0,
and checks the remaining positions for emptiness. -/
def decCheckLoop : Nat → List String → Option CmdError
  | _, [] => none
  | i, arg :: rest =>
    if i = 0 ∨ i = 2 ∨ i = 4 then
      if ¬(arg = "-d" ∨ arg = "-i" ∨ arg = "-o") ∧ i ≠ 0 then
        some (CmdError.unexpectedFlag arg)
      else decCheckLoop (i + 1) rest
    else if arg = "" then some CmdError.emptyArgDecrypt
    else decCheckLoop (i + 1) rest

/-- All checks tryDecrypt performs before reaching the exec.Command call:
the argument loop, then the key file suffix check, then the output suffix
check, in source order. -/
def tryDecryptCheck (keyPath output input : String) : Option CmdError :=
  match decCheckLoop 0 ["-d", "-i", keyPath, "-o", output, input] with
  | some e => some e
  | none =>
    if !(goHasSuffix keyPath "id_rsa") && !(goHasSuffix keyPath "id_ed25519") then
      some (CmdError.invalidKeyFile keyPath)
    else if !(goHasSuffix output ".txt") && !(goHasSuffix output ".out") then
      some (CmdError.invalidOutputDecrypt output)
    else none

/-- Embedding of tryDecrypt (decrypt.go lines 14 to 38).  The age oracle
maps the argument vector to none on success or the process error message;
it is consulted only after every check passes. -/
def tryDecrypt (age : List String → Option String) (keyPath output input : String) :
    Option CmdError :=
  let ageBin := "age"
  if ageBin ≠ "age" then some (CmdError.invalidBinary ageBin)
  else
    match tryDecryptCheck keyPath output input with
    | some e => some e
    | none =>
      Option.map CmdError.external (age ["-d", "-i", keyPath, "-o", output, input])

/-- Embedding of selectSSHKey (decrypt.go lines 41 to 46). -/
def selectSSHKey (sshKeyFlag : String) (cfg : Config) : String :=
  if sshKeyFlag ≠ "" then sshKeyFlag else cfg.SSHKeyPath

/-- Embedding of tryAllKeys (decrypt.go lines 49 to 65).  The Go function
mutates a caller supplied slice of tried keys through a pointer; here the
slice is threaded explicitly and returned next to the success flag. -/
def tryAllKeys (age : List String → Option String) (keys : List String)
    (input output : String) (triedKeys : List String) : Bool × List String :=
  match keys with
  | [] => (false, triedKeys)
  | keyPath :: rest =>
    let tried := triedKeys ++ [keyPath]
    match tryDecrypt age keyPath output input with
    | none => (true, tried)
    | some _ => tryAllKeys age rest input output tried

/-- The outside world as seen by the decrypt command: the age binary, the
stat call on the input file, and the home directory listing consumed by
the SSH key scan. -/
structure World where
  age : List String → Option String
  statErr : String → Option String
  home : String
  readDir : Except String (List DirEntry)

/-- Embedding of the RunE body of the decrypt command (decrypt.go lines 72
to 116): flag validation, input stat, key selection, then either the
single selected key or the scanned keys are tried, and failure reports the
tried keys. -/
def Decrypt (w : World) (cfg : Config) (input output sshKeyFlag : String) :
    Option CmdError :=
  if input = "" then some CmdError.inputRequired
  else if output = "" then some CmdError.outputRequired
  else
    match w.statErr input with
    | some e => some (CmdError.inputMissing e)
    | none =>
      let sshKey := selectSSHKey sshKeyFlag cfg
      if sshKey ≠ "" then
        match tryDecrypt w.age sshKey output input with
        | none => none
        | some _ => some (CmdError.allKeysFailed [sshKey])
      else
        match ScanSSHPrivateKeys w.home w.readDir with
        | .error e => some (CmdError.scanFailed e)
        | .ok keys =>
          let r := tryAllKeys w.age keys input output []
          if r.1 then none else some (CmdError.allKeysFailed r.2)

/-- The flattened recipient flag pairs of buildAgeArgs: one -r flag before
each recipient, in the given order. -/
def rPairs : List String → List String
  | [] => []
  | r :: rs => "-r" :: r :: rPairs rs

/-- The validation loop of buildAgeArgs (encrypt.go lines 142 to 150),
indexed over the argument list of total length n: even positions before
the last two must hold an expected flag, all other positions must be
nonempty. -/
def encCheckLoop (n : Nat) : Nat → List String → Option CmdError
  | _, [] => none
  | i, arg :: rest =>
    if i % 2 = 0 ∧ i < n - 2 then
      if ¬(arg = "-o" ∨ arg = "-r") then some (CmdError.unexpectedFlag arg)
      else encCheckLoop n (i + 1) rest
    else if arg = "" then some CmdError.emptyArgEncrypt
    else encCheckLoop n (i + 1) rest

/-- Embedding of buildAgeArgs (encrypt.go lines 133 to 156): build the
argument vector, run the validation loop, then restrict the output file
extension. -/
def buildAgeArgs (output input : String) (recipients : List String) :
    Except CmdError (List String) :=
  let ageArgs := (recipients.foldl (fun acc r => acc ++ ["-r", r]) ["-o", output]) ++ [input]
  match encCheckLoop ageArgs.length 0 ageArgs with
  | some e => .error e
  | none =>
    if !(goHasSuffix output ".txt") && !(goHasSuffix output ".out") then
      .error (CmdError.invalidOutputEncrypt output)
    else .ok ageArgs

/-- ASCII letter or digit, one character class of the GitHub username
pattern in encrypt.go. -/
def isAlnumGo (c : Char) : Bool :=
  c.isAlpha || c.isDigit

/-- Embedding of the GitHub username pattern of encrypt.go line 88: one
alphanumeric character, optionally followed by up to 37 characters that
are alphanumeric or a dash and a final alphanumeric character. -/
def validGitHubUser (s : String) : Bool :=
  match s.data with
  | [] => false
  | c :: rest =>
    isAlnumGo c &&
      (rest.isEmpty ||
        (decide (rest.length ≤ 38) &&
          rest.dropLast.all (fun d => isAlnumGo d || d == '-') &&
          (match rest.getLast? with
           | some d => isAlnumGo d
           | none => false)))

/-- The nonempty trimmed lines of a fetched GitHub keys response body
(encrypt.go lines 106 to 111). -/
def githubKeysOf (body : String) : List String :=
  ((splitLines body.data).map (fun l => String.mk (trimChars l))).filter
    (fun line => line != "")

/-- The part of an HTTP response that collectRecipients inspects: status
code, the result of reading the body, and the result of closing it. -/
structure HttpResponse where
  statusCode : Nat
  body : Except String String
  closeErr : Option String

/-- Embedding of collectRecipients (encrypt.go lines 73 to 130).  The HTTP
fetch is an oracle from the URL to a response or transport error.  Every
failure around the GitHub keys only logs a warning, so the function has no
error result of its own; the Go error return is modelled in the last
component and is syntactically none on every path. -/
def collectRecipients (httpGet : String → Except String HttpResponse)
    (cfg : Config) (recipients : List String) (ghUserFlag : String) :
    List String × String × Option String :=
  let allRecipients := cfg.DefaultRecipients ++ recipients
  let ghUser := if ghUserFlag = "" ∧ cfg.GitHubUser ≠ "" then cfg.GitHubUser else ghUserFlag
  if ghUser ≠ "" then
    if !(validGitHubUser ghUser) then (allRecipients, ghUser, none)
    else
      let url := "https://github.com/" ++ ghUser ++ ".keys"
      if !(goHasPrefix url "https://github.com/") || !(goHasSuffix url ".keys") then
        (allRecipients, ghUser, none)
      else
        match httpGet url with
        | .error _ => (allRecipients, ghUser, none)
        | .ok resp =>
          let githubKeys :=
            if resp.statusCode = 200 then
              match resp.body, resp.closeErr with
              | .ok body, none => githubKeysOf body
              | _, _ => []
            else []
          (allRecipients ++ githubKeys, ghUser, none)
  else (allRecipients, ghUser, none)

/-- Candidate key list of the decrypt command as the specification states
it: a nonempty ssh-key flag selects that key alone, otherwise a nonempty
configured SSHKeyPath selects that key alone, and only when both are empty
the scanned keys are the candidates. -/
def candidateKeys (sshKeyFlag : String) (cfg : Config) (scanned : List String) :
    List String :=
  if sshKeyFlag ≠ "" then [sshKeyFlag]
  else if cfg.SSHKeyPath ≠ "" then [cfg.SSHKeyPath]
  else scanned

/-- Trying a key list in order, as the specification describes the decrypt
command: sequential attempts, success on the first matching key, failure
reporting the tried keys. -/
def decryptViaKeyList (age : List String → Option String) (keys : List String)
    (input output : String) : Option CmdError :=
  let r := tryAllKeys age keys input output []
  if r.1 then none else some (CmdError.allKeysFailed r.2)

/-- The GitHub user the encrypt command resolves: the flag when nonempty,
otherwise the configured user (encrypt.go lines 82 to 85). -/
def resolveGhUser (ghUserFlag : String) (cfg : Config) : String :=
  if ghUserFlag = "" ∧ cfg.GitHubUser ≠ "" then cfg.GitHubUser else ghUserFlag

/-- The GitHub keys collectRecipients appends, as the specification states
them: empty whenever the user is empty or invalid, the fetch fails, the
body is unreadable or fails to close, or the status is not 200; otherwise
the nonempty trimmed lines of the body. -/
def fetchedKeys (httpGet : String → Except String HttpResponse) (ghUser : String) :
    List String :=
  if ghUser ≠ "" then
    if !(validGitHubUser ghUser) then []
    else
      let url := "https://github.com/" ++ ghUser ++ ".keys"
      if !(goHasPrefix url "https://github.com/") || !(goHasSuffix url ".keys") then []
      else
        match httpGet url with
        | .error _ => []
        | .ok resp =>
          if resp.statusCode = 200 then
            match resp.body, resp.closeErr with
            | .ok body, none => githubKeysOf body
            | _, _ => []
          else []
  else []

/-- An age oracle on which every invocation fails, used to instantiate the
theorems at concrete inputs. -/
def ageFailAll : List String → Option String :=
  fun _ => some "age: no identity matched any of the recipients"

/-- A concrete world for instantiations: every stat succeeds and the SSH
directory listing is empty. -/
def wEx : World :=
  ⟨ageFailAll, fun _ => none, "/home/user", Except.ok []⟩

/-- A concrete config with no SSH key, no GitHub user and no recipients. -/
def cfgEmpty : Config :=
  ⟨"", "", [], 0, ""⟩

/-- A concrete HTTP oracle on which every fetch fails with a transport
error, used to instantiate the theorems at concrete inputs. -/
def httpGetFail : String → Except String HttpResponse :=
  fun _ => Except.error "dial tcp: network unreachable"

/-- A concrete load environment whose config file exists with permission
bits 0644. -/
def envEx : LoadEnv :=
  ⟨Except.ok "/home/user/.config",
   fun p => Except.ok p,
   fun _ => Except.ok ⟨0o644⟩,
   fun _ => Except.ok "",
   fun _ => Except.ok cfgEmpty,
   "/home/user",
   fun _ => none⟩

example : tryDecrypt ageFailAll "/home/user/.ssh/id_rsa" "out.txt" "in.age"
    = some (CmdError.unexpectedFlag "/home/user/.ssh/id_rsa") := by decide

example : Decrypt wEx cfgEmpty "in.age" "out.txt" "k1"
    = some (CmdError.allKeysFailed ["k1"]) := by decide

example : buildAgeArgs "o.txt" "in" ["r1"] = Except.ok ["-o", "o.txt", "-r", "r1", "in"] := by rfl

example : ScanSSHPrivateKeys "/h" (Except.ok [⟨"id_rsa", false⟩, ⟨"id_rsa.pub", false⟩, ⟨"id_x", true⟩])
    = Except.ok ["/h/.ssh/id_rsa"] := by rfl

example : githubKeysOf "ssh-ed25519 AAA\n\n  ssh-rsa BBB \n" = ["ssh-ed25519 AAA", "ssh-rsa BBB"] := by decide

example : validGitHubUser "octo-cat" = true := by decide

example : validGitHubUser "-octo" = false := by decide

theorem tryAll_char (age : List String → Option String) (input output : String) :
    ∀ (keys triedKeys : List String),
      ((tryAllKeys age keys input output triedKeys).1 = true ↔
          ∃ k ∈ keys, tryDecrypt age k output input = none)
        ∧ (tryAllKeys age keys input output triedKeys).2
            = triedKeys
              ++ keys.takeWhile (fun k => (tryDecrypt age k output input).isSome)
              ++ (keys.dropWhile (fun k => (tryDecrypt age k output input).isSome)).take 1
  | [], t => by simp [tryAllKeys]
  | k :: ks, t => by
    cases h : tryDecrypt age k output input with
    | none =>
      constructor
      · simp only [tryAllKeys, h, true_iff]
        exact ⟨k, List.mem_cons_self k ks, h⟩
      · simp [tryAllKeys, h]
    | some e =>
      have ih := tryAll_char age input output ks (t ++ [k])
      have hstep : tryAllKeys age (k :: ks) input output t
          = tryAllKeys age ks input output (t ++ [k]) := by
        simp [tryAllKeys, h]
      constructor
      · rw [hstep, ih.1]
        simp [h]
      · rw [hstep, ih.2]
        simp [h, List.append_assoc]

theorem tryAll_allFail (age : List String → Option String) (input output : String) :
    ∀ (keys triedKeys : List String),
      (∀ k ∈ keys, tryDecrypt age k output input ≠ none) →
      tryAllKeys age keys input output triedKeys = (false, triedKeys ++ keys)
  | [], t, _ => by simp [tryAllKeys]
  | k :: ks, t, h => by
    cases hk : tryDecrypt age k output input with
    | none => exact absurd hk (h k (List.mem_cons_self k ks))
    | some e =>
      have := tryAll_allFail age input output ks (t ++ [k])
        (fun x hx => h x (List.mem_cons_of_mem k hx))
      simp [tryAllKeys, hk, this, List.append_assoc]

theorem decrypt_eq_candidates (w : World) (cfg : Config)
    (input output sshKeyFlag : String) (scanned : List String)
    (hin : input ≠ "") (hout : output ≠ "") (hstat : w.statErr input = none)
    (hscan : ScanSSHPrivateKeys w.home w.readDir = Except.ok scanned) :
    Decrypt w cfg input output sshKeyFlag
      = decryptViaKeyList w.age (candidateKeys sshKeyFlag cfg scanned) input output := by
  by_cases hf : sshKeyFlag = ""
  · by_cases hc : cfg.SSHKeyPath = ""
    · simp only [Decrypt, hin, hout, hstat, selectSSHKey, candidateKeys, hf, hc,
        if_neg, ite_false, ne_eq, not_true_eq_false, ite_not, hscan]
      simp [hf, hc, decryptViaKeyList]
    · cases h2 : tryDecrypt w.age cfg.SSHKeyPath output input with
      | none =>
        simp [Decrypt, hin, hout, hstat, selectSSHKey, candidateKeys, hf, hc, h2,
          decryptViaKeyList, tryAllKeys]
      | some e =>
        simp [Decrypt, hin, hout, hstat, selectSSHKey, candidateKeys, hf, hc, h2,
          decryptViaKeyList, tryAllKeys]
  · cases h2 : tryDecrypt w.age sshKeyFlag output input with
    | none =>
      simp [Decrypt, hin, hout, hstat, selectSSHKey, candidateKeys, hf, h2,
        decryptViaKeyList, tryAllKeys]
    | some e =>
      simp [Decrypt, hin, hout, hstat, selectSSHKey, candidateKeys, hf, h2,
        decryptViaKeyList, tryAllKeys]

theorem tryDecryptCheck_always (keyPath output input : String) :
    ∃ e, tryDecryptCheck keyPath output input = some e := by
  by_cases hk : keyPath = "-d" ∨ keyPath = "-i" ∨ keyPath = "-o"
  · by_cases ho : output = "-d" ∨ output = "-i" ∨ output = "-o"
    · by_cases hi : input = ""
      · exact ⟨CmdError.emptyArgDecrypt, by simp [tryDecryptCheck, decCheckLoop, hk, ho, hi]⟩
      · refine ⟨CmdError.invalidKeyFile keyPath, ?_⟩
        have hsuf : goHasSuffix keyPath "id_rsa" = false ∧ goHasSuffix keyPath "id_ed25519" = false := by
          rcases hk with hk | hk | hk <;> subst hk <;> exact ⟨by decide, by decide⟩
        simp [tryDecryptCheck, decCheckLoop, hk, ho, hi, hsuf.1, hsuf.2]
    · exact ⟨CmdError.unexpectedFlag output, by simp [tryDecryptCheck, decCheckLoop, hk, ho]⟩
  · exact ⟨CmdError.unexpectedFlag keyPath, by simp [tryDecryptCheck, decCheckLoop, hk]⟩

theorem tryDecrypt_of_check (keyPath output input : String) (e : CmdError)
    (h : tryDecryptCheck keyPath output input = some e) :
    ∀ age : List String → Option String, tryDecrypt age keyPath output input = some e := by
  intro age
  simp [tryDecrypt, h]

/-- C8: tryDecrypt returns an error without consulting the external age
binary whenever the key path does not end in id_rsa or id_ed25519, or the
output path does not end in .txt or .out, or the key path, output or input
is empty.  The returned error is the same for every age oracle, so the
binary is never invoked on such inputs. -/
theorem tryDecrypt_rejects_invalid (keyPath output input : String)
    (_h : ¬(goHasSuffix keyPath "id_rsa" = true ∨ goHasSuffix keyPath "id_ed25519" = true)
        ∨ ¬(goHasSuffix output ".txt" = true ∨ goHasSuffix output ".out" = true)
        ∨ keyPath = "" ∨ output = "" ∨ input = "") :
    ∃ e, ∀ age : List String → Option String,
      tryDecrypt age keyPath output input = some e := by
  obtain ⟨e, he⟩ := tryDecryptCheck_always keyPath output input
  exact ⟨e, tryDecrypt_of_check keyPath output input e he⟩

theorem tryDecrypt_rejects_invalid_witness :
    (¬(goHasSuffix "/home/user/.ssh/id_ecdsa" "id_rsa" = true
        ∨ goHasSuffix "/home/user/.ssh/id_ecdsa" "id_ed25519" = true)
      ∨ ¬(goHasSuffix "out.txt" ".txt" = true ∨ goHasSuffix "out.txt" ".out" = true)
      ∨ ("/home/user/.ssh/id_ecdsa" : String) = "" ∨ ("out.txt" : String) = ""
      ∨ ("in.age" : String) = "")
    ∧ ∃ e, ∀ age : List String → Option String,
        tryDecrypt age "/home/user/.ssh/id_ecdsa" "out.txt" "in.age" = some e :=
  ⟨by decide,
    tryDecrypt_rejects_invalid "/home/user/.ssh/id_ecdsa" "out.txt" "in.age" (by decide)⟩

/-- C10 (code bug witness): the unexpected flag branch of tryDecrypt is
reachable.  The validation loop treats positions 0, 2 and 4 of the vector
-d -i keyPath -o output input as flag positions, but position 2 holds the
key path, so any realistic key path is rejected as an unexpected flag and
decryption always fails, whatever the age binary would answer. -/
theorem tryDecrypt_unexpected_flag_fires :
    ∀ age : List String → Option String,
      tryDecrypt age "/home/user/.ssh/id_rsa" "out.txt" "secret.age"
        = some (CmdError.unexpectedFlag "/home/user/.ssh/id_rsa") := by
  intro age
  rfl

/-- C2: tryAllKeys tries the keys sequentially in list order, returns true
exactly when some key decrypts (stopping at the first such key), returns
false exactly when every key fails, and extends the tried list by exactly
the prefix of the key list up to and including the last key attempted. -/
theorem tryAllKeys_sequential_trial (age : List String → Option String)
    (keys : List String) (input output : String) (triedKeys : List String) :
    ((tryAllKeys age keys input output triedKeys).1 = true ↔
        ∃ k ∈ keys, tryDecrypt age k output input = none)
      ∧ ((tryAllKeys age keys input output triedKeys).1 = false ↔
          ∀ k ∈ keys, tryDecrypt age k output input ≠ none)
      ∧ (tryAllKeys age keys input output triedKeys).2
          = triedKeys
            ++ keys.takeWhile (fun k => (tryDecrypt age k output input).isSome)
            ++ (keys.dropWhile (fun k => (tryDecrypt age k output input).isSome)).take 1 := by
  have h := tryAll_char age input output keys triedKeys
  refine ⟨h.1, ?_, h.2⟩
  constructor
  · intro hf k hk hknone
    have := h.1.mpr ⟨k, hk, hknone⟩
    rw [this] at hf
    cases hf
  · intro hall
    cases hres : (tryAllKeys age keys input output triedKeys).1 with
    | false => rfl
    | true =>
      obtain ⟨k, hk, hknone⟩ := h.1.mp hres
      exact absurd hknone (hall k hk)

/-- C1: with the command level guards passed, the decrypt command resolves
its candidate keys in a fixed priority order: a nonempty ssh-key flag is
tried alone, otherwise a nonempty configured SSHKeyPath is tried alone,
and only when both are empty the scanned keys are tried in list order. -/
theorem decrypt_resolves_keys_in_priority (w : World) (cfg : Config)
    (input output sshKeyFlag : String) (scanned : List String)
    (hin : input ≠ "") (hout : output ≠ "") (hstat : w.statErr input = none)
    (hscan : ScanSSHPrivateKeys w.home w.readDir = Except.ok scanned) :
    (sshKeyFlag ≠ "" →
        Decrypt w cfg input output sshKeyFlag
          = decryptViaKeyList w.age [sshKeyFlag] input output)
      ∧ (sshKeyFlag = "" → cfg.SSHKeyPath ≠ "" →
          Decrypt w cfg input output sshKeyFlag
            = decryptViaKeyList w.age [cfg.SSHKeyPath] input output)
      ∧ (sshKeyFlag = "" → cfg.SSHKeyPath = "" →
          Decrypt w cfg input output sshKeyFlag
            = decryptViaKeyList w.age scanned input output) := by
  have h := decrypt_eq_candidates w cfg input output sshKeyFlag scanned hin hout hstat hscan
  refine ⟨fun hf => ?_, fun hf hc => ?_, fun hf hc => ?_⟩
  · rw [h]; simp [candidateKeys, hf]
  · rw [h]; simp [candidateKeys, hf, hc]
  · rw [h]; simp [candidateKeys, hf, hc]

theorem decrypt_resolves_keys_in_priority_witness :
    (("in.age" : String) ≠ "" ∧ ("out.txt" : String) ≠ ""
        ∧ wEx.statErr "in.age" = none
        ∧ ScanSSHPrivateKeys wEx.home wEx.readDir = Except.ok [])
      ∧ (("k1" : String) ≠ "" →
          Decrypt wEx cfgEmpty "in.age" "out.txt" "k1"
            = decryptViaKeyList wEx.age ["k1"] "in.age" "out.txt")
      ∧ (("k1" : String) = "" → cfgEmpty.SSHKeyPath ≠ "" →
          Decrypt wEx cfgEmpty "in.age" "out.txt" "k1"
            = decryptViaKeyList wEx.age [cfgEmpty.SSHKeyPath] "in.age" "out.txt")
      ∧ (("k1" : String) = "" → cfgEmpty.SSHKeyPath = "" →
          Decrypt wEx cfgEmpty "in.age" "out.txt" "k1"
            = decryptViaKeyList wEx.age [] "in.age" "out.txt") :=
  ⟨⟨by decide, by decide, rfl, rfl⟩,
    decrypt_resolves_keys_in_priority wEx cfgEmpty "in.age" "out.txt" "k1" []
      (by decide) (by decide) rfl rfl⟩

/-- C3: with the command level guards passed, the decrypt command returns
the failure error listing exactly the tried keys, in order, when every
candidate key fails, and returns no error when some candidate key
succeeds. -/
theorem decrypt_failure_reports_tried_keys (w : World) (cfg : Config)
    (input output sshKeyFlag : String) (scanned : List String)
    (hin : input ≠ "") (hout : output ≠ "") (hstat : w.statErr input = none)
    (hscan : ScanSSHPrivateKeys w.home w.readDir = Except.ok scanned) :
    ((∀ k ∈ candidateKeys sshKeyFlag cfg scanned,
          tryDecrypt w.age k output input ≠ none) →
        Decrypt w cfg input output sshKeyFlag
            = some (CmdError.allKeysFailed (candidateKeys sshKeyFlag cfg scanned))
          ∧ renderErr (CmdError.allKeysFailed (candidateKeys sshKeyFlag cfg scanned))
              = "decryption failed: none of the tried SSH keys matched\nTried keys: "
                ++ goSliceFmt (candidateKeys sshKeyFlag cfg scanned))
      ∧ ((∃ k ∈ candidateKeys sshKeyFlag cfg scanned,
            tryDecrypt w.age k output input = none) →
          Decrypt w cfg input output sshKeyFlag = none) := by
  have h := decrypt_eq_candidates w cfg input output sshKeyFlag scanned hin hout hstat hscan
  constructor
  · intro hall
    have ht := tryAll_allFail w.age input output (candidateKeys sshKeyFlag cfg scanned) [] hall
    rw [h]
    refine ⟨?_, rfl⟩
    simp [decryptViaKeyList, ht]
  · intro hex
    have h1 := (tryAll_char w.age input output (candidateKeys sshKeyFlag cfg scanned) []).1.mpr hex
    rw [h]
    simp [decryptViaKeyList, h1]

theorem decrypt_failure_reports_tried_keys_witness :
    (("in.age" : String) ≠ "" ∧ ("out.txt" : String) ≠ ""
        ∧ wEx.statErr "in.age" = none
        ∧ ScanSSHPrivateKeys wEx.home wEx.readDir = Except.ok []
        ∧ ∀ k ∈ candidateKeys "k1" cfgEmpty [],
            tryDecrypt wEx.age k "out.txt" "in.age" ≠ none)
      ∧ Decrypt wEx cfgEmpty "in.age" "out.txt" "k1"
          = some (CmdError.allKeysFailed (candidateKeys "k1" cfgEmpty []))
      ∧ renderErr (CmdError.allKeysFailed (candidateKeys "k1" cfgEmpty []))
          = "decryption failed: none of the tried SSH keys matched\nTried keys: "
            ++ goSliceFmt (candidateKeys "k1" cfgEmpty []) :=
  ⟨⟨by decide, by decide, rfl, rfl, by decide⟩,
    (decrypt_failure_reports_tried_keys wEx cfgEmpty "in.age" "out.txt" "k1" []
        (by decide) (by decide) rfl rfl).1 (by decide)⟩

/-- C4: with the command level guards passed, whenever the decrypt command
reports decryption failure, the tried key list it reports is the whole
candidate list: after a failing key the command fell back across all the
remaining candidate keys before reporting failure. -/
theorem decrypt_tries_all_before_failure (w : World) (cfg : Config)
    (input output sshKeyFlag : String) (scanned tried : List String)
    (hin : input ≠ "") (hout : output ≠ "") (hstat : w.statErr input = none)
    (hscan : ScanSSHPrivateKeys w.home w.readDir = Except.ok scanned)
    (hfail : Decrypt w cfg input output sshKeyFlag
      = some (CmdError.allKeysFailed tried)) :
    tried = candidateKeys sshKeyFlag cfg scanned := by
  have h := decrypt_eq_candidates w cfg input output sshKeyFlag scanned hin hout hstat hscan
  rw [h] at hfail
  rcases Classical.em (∃ k ∈ candidateKeys sshKeyFlag cfg scanned,
      tryDecrypt w.age k output input = none) with hex | hnone
  · have h1 := (tryAll_char w.age input output
        (candidateKeys sshKeyFlag cfg scanned) []).1.mpr hex
    simp [decryptViaKeyList, h1] at hfail
  · have hall : ∀ k ∈ candidateKeys sshKeyFlag cfg scanned,
        tryDecrypt w.age k output input ≠ none :=
      fun k hk hkn => hnone ⟨k, hk, hkn⟩
    have ht := tryAll_allFail w.age input output (candidateKeys sshKeyFlag cfg scanned) [] hall
    simp [decryptViaKeyList, ht] at hfail
    exact hfail.symm

theorem decrypt_tries_all_before_failure_witness :
    (("in.age" : String) ≠ "" ∧ ("out.txt" : String) ≠ ""
        ∧ wEx.statErr "in.age" = none
        ∧ ScanSSHPrivateKeys wEx.home wEx.readDir = Except.ok []
        ∧ Decrypt wEx cfgEmpty "in.age" "out.txt" "k1"
            = some (CmdError.allKeysFailed ["k1"]))
      ∧ ["k1"] = candidateKeys "k1" cfgEmpty [] :=
  ⟨⟨by decide, by decide, rfl, rfl, by decide⟩,
    decrypt_tries_all_before_failure wEx cfgEmpty "in.age" "out.txt" "k1" [] ["k1"]
      (by decide) (by decide) rfl rfl (by decide)⟩

theorem foldl_rPairs : ∀ (rs acc : List String),
    List.foldl (fun a r => a ++ ["-r", r]) acc rs = acc ++ rPairs rs
  | [], acc => by simp [rPairs]
  | r :: rs, acc => by
    simp only [List.foldl_cons, rPairs]
    rw [foldl_rPairs rs (acc ++ ["-r", r])]
    simp

theorem rPairs_length : ∀ rs : List String, (rPairs rs).length = 2 * rs.length
  | [] => rfl
  | r :: rs => by
    simp [rPairs, rPairs_length rs]
    omega

theorem encLoop_tail : ∀ (rs : List String) (input : String) (n i : Nat),
    i % 2 = 0 → n = i + 2 * rs.length + 1 →
    (encCheckLoop n i (rPairs rs ++ [input]) = none ↔
      ((∀ r ∈ rs, r ≠ "") ∧ input ≠ ""))
  | [], input, n, i, hi, hn => by
    have hcond : ¬(i % 2 = 0 ∧ i < n - 2) := by
      simp only [List.length_nil] at hn
      omega
    by_cases hin : input = "" <;>
      simp [rPairs, encCheckLoop, hin, hcond]
  | r :: rs, input, n, i, hi, hn => by
    simp only [List.length_cons] at hn
    have hc1 : i % 2 = 0 ∧ i < n - 2 := ⟨hi, by omega⟩
    have h1 : encCheckLoop n i ("-r" :: r :: (rPairs rs ++ [input]))
        = encCheckLoop n (i + 1) (r :: (rPairs rs ++ [input])) := by
      simp [encCheckLoop, hc1]
    have hc2 : ¬((i + 1) % 2 = 0 ∧ (i + 1) < n - 2) := by omega
    by_cases hr : r = ""
    · have h2 : encCheckLoop n (i + 1) (r :: (rPairs rs ++ [input]))
          = some CmdError.emptyArgEncrypt := by
        simp [encCheckLoop, hc2, hr]
      simp only [rPairs, List.cons_append, h1, h2]
      simp [hr]
    · have h2 : encCheckLoop n (i + 1) (r :: (rPairs rs ++ [input]))
          = encCheckLoop n (i + 2) (rPairs rs ++ [input]) := by
      -- the value position falls through to the next index
        have : i + 1 + 1 = i + 2 := by omega
        simp [encCheckLoop, hc2, hr, this]
      have ih := encLoop_tail rs input n (i + 2) (by omega) (by omega)
      simp only [rPairs, List.cons_append, h1, h2, ih]
      simp [List.forall_mem_cons, hr]

theorem encLoop_full (output input : String) (rs : List String) (n : Nat)
    (hn : n = 2 * rs.length + 3) :
    (encCheckLoop n 0 ("-o" :: output :: (rPairs rs ++ [input])) = none
      ↔ (output ≠ "" ∧ (∀ r ∈ rs, r ≠ "") ∧ input ≠ "")) := by
  have h0 : (0 : Nat) % 2 = 0 ∧ 0 < n - 2 := by omega
  have h1 : encCheckLoop n 0 ("-o" :: output :: (rPairs rs ++ [input]))
      = encCheckLoop n 1 (output :: (rPairs rs ++ [input])) := by
    simp [encCheckLoop, h0]
  have hc2 : ¬((1 : Nat) % 2 = 0 ∧ 1 < n - 2) := by omega
  by_cases ho : output = ""
  · have h2 : encCheckLoop n 1 (output :: (rPairs rs ++ [input]))
        = some CmdError.emptyArgEncrypt := by
      simp [encCheckLoop, hc2, ho]
    rw [h1, h2]
    simp [ho]
  · have h2 : encCheckLoop n 1 (output :: (rPairs rs ++ [input]))
        = encCheckLoop n 2 (rPairs rs ++ [input]) := by
      simp [encCheckLoop, hc2, ho]
    have ih := encLoop_tail rs input n 2 (by omega) (by omega)
    rw [h1, h2, ih]
    simp [ho]

theorem buildAgeArgs_args (output input : String) (rs : List String) :
    (rs.foldl (fun acc r => acc ++ ["-r", r]) ["-o", output]) ++ [input]
      = "-o" :: output :: (rPairs rs ++ [input]) := by
  rw [foldl_rPairs]
  simp

theorem args_length (output input : String) (rs : List String) :
    ("-o" :: output :: (rPairs rs ++ [input])).length = 2 * rs.length + 3 := by
  simp [rPairs_length]

/-- C7: buildAgeArgs succeeds exactly on a nonempty input, nonempty
recipients and an output ending in .txt or .out, returning the exact
argument vector -o output -r r1 ... -r rn input, and returns an error
whenever the output extension is wrong or the output, the input, or any
recipient is empty. -/
theorem buildAgeArgs_validates (output input : String) (rs : List String) :
    ((goHasSuffix output ".txt" = true ∨ goHasSuffix output ".out" = true) →
        output ≠ "" → input ≠ "" → (∀ r ∈ rs, r ≠ "") →
        buildAgeArgs output input rs
          = Except.ok ("-o" :: output :: (rPairs rs ++ [input])))
      ∧ ((¬(goHasSuffix output ".txt" = true ∨ goHasSuffix output ".out" = true)
            ∨ output = "" ∨ input = "" ∨ ∃ r ∈ rs, r = "") →
        ∃ e, buildAgeArgs output input rs = Except.error e) := by
  have hfull := encLoop_full output input rs
    (("-o" :: output :: (rPairs rs ++ [input])).length) (args_length output input rs)
  constructor
  · intro hsuf hout hin hrs
    have hnone := hfull.2 ⟨hout, hrs, hin⟩
    simp only [buildAgeArgs, buildAgeArgs_args, hnone]
    rcases hsuf with h | h <;> simp [h]
  · intro hbad
    cases hl : encCheckLoop (("-o" :: output :: (rPairs rs ++ [input])).length) 0
        ("-o" :: output :: (rPairs rs ++ [input])) with
    | some e =>
      refine ⟨e, ?_⟩
      simp only [buildAgeArgs, buildAgeArgs_args, hl]
    | none =>
      have hcon := hfull.1 hl
      rcases hbad with hsuf | ho | hi | ⟨r, hr, hre⟩
      · refine ⟨CmdError.invalidOutputEncrypt output, ?_⟩
        have ht : goHasSuffix output ".txt" = false :=
          Bool.eq_false_iff.mpr (fun hc => hsuf (Or.inl hc))
        have hu : goHasSuffix output ".out" = false :=
          Bool.eq_false_iff.mpr (fun hc => hsuf (Or.inr hc))
        simp only [buildAgeArgs, buildAgeArgs_args, hl, ht, hu]
        rfl
      · exact absurd ho hcon.1
      · exact absurd hi hcon.2.2
      · exact absurd hre (hcon.2.1 r hr)

theorem buildAgeArgs_validates_witness :
    ((goHasSuffix "o.txt" ".txt" = true ∨ goHasSuffix "o.txt" ".out" = true)
        ∧ ("o.txt" : String) ≠ "" ∧ ("in" : String) ≠ ""
        ∧ (∀ r ∈ ["r1"], r ≠ "")
        ∧ buildAgeArgs "o.txt" "in" ["r1"]
            = Except.ok ("-o" :: "o.txt" :: (rPairs ["r1"] ++ ["in"])))
      ∧ ((¬(goHasSuffix "bad.bin" ".txt" = true ∨ goHasSuffix "bad.bin" ".out" = true)
            ∨ ("bad.bin" : String) = "" ∨ ("in" : String) = "" ∨ ∃ r ∈ ["r1"], r = "")
          ∧ ∃ e, buildAgeArgs "bad.bin" "in" ["r1"] = Except.error e) :=
  ⟨⟨by decide, by decide, by decide, by decide,
      (buildAgeArgs_validates "o.txt" "in" ["r1"]).1 (by decide) (by decide)
        (by decide) (by decide)⟩,
    ⟨by decide,
      (buildAgeArgs_validates "bad.bin" "in" ["r1"]).2 (by decide)⟩⟩

theorem scanFilesGo_eq (d : String) : ∀ files : List DirEntry,
    scanFilesGo d files
      = (files.filter (fun f => !f.isDir
            && (goHasPrefix f.name "id_" && !(goHasSuffix f.name ".pub")))).map
          (fun f => filepathJoin d f.name)
  | [] => rfl
  | f :: fs => by
    cases hd : f.isDir with
    | true => simp [scanFilesGo, hd, scanFilesGo_eq d fs]
    | false =>
      cases hc : (goHasPrefix f.name "id_" && !(goHasSuffix f.name ".pub")) with
      | true => simp [scanFilesGo, hd, hc, scanFilesGo_eq d fs]
      | false => simp [scanFilesGo, hd, hc, scanFilesGo_eq d fs]

/-- C6: ScanSSHPrivateKeys returns exactly the non directory entries whose
name starts with id_ and does not end with .pub, each joined to the key
directory path, preserving listing order, and it returns an error exactly
when the directory listing itself is an error, propagating that error. -/
theorem scan_returns_filtered_listing (home : String)
    (listing : Except String (List DirEntry)) :
    ScanSSHPrivateKeys home listing
      = Except.map (fun files =>
          (files.filter (fun f => !f.isDir
              && (goHasPrefix f.name "id_" && !(goHasSuffix f.name ".pub")))).map
            (fun f => filepathJoin (filepathJoin home ".ssh") f.name)) listing := by
  cases listing with
  | error e => rfl
  | ok files => simp [ScanSSHPrivateKeys, Except.map, scanFilesGo_eq]

/-- C5: SaveConfig only ever issues a write with permission bits 0600, and
LoadConfig returns an error whenever the config file exists but its
permission bits are not exactly 0600. -/
theorem config_file_perm_invariant :
    (∀ (marshal : Config → Except String String) (cfgFile : String) (cfg : Config)
        (w : FileWrite),
        SaveConfig marshal cfgFile cfg = Except.ok w → w.perm = 0o600)
      ∧ (∀ (env : LoadEnv) (cfgFile : String) (info : FileInfo),
          env.stat cfgFile = Except.ok info → info.perm ≠ 0o600 →
          ∃ msg, LoadConfig env cfgFile = Except.error msg) := by
  constructor
  · intro marshal cfgFile cfg w hw
    cases hm : marshal cfg with
    | error e => simp [SaveConfig, hm] at hw
    | ok data =>
      simp [SaveConfig, hm] at hw
      rw [← hw]
  · intro env cfgFile info hstat hperm
    cases hu : env.userConfigDir with
    | error e => exact ⟨e, by simp [LoadConfig, hu]⟩
    | ok configDir =>
      cases ha : env.abs cfgFile with
      | error e => exact ⟨e, by simp [LoadConfig, hu, ha]⟩
      | ok absFile =>
        cases hp : goHasPrefix absFile (filepathJoin configDir "a") with
        | false =>
          refine ⟨"config file path " ++ absFile
            ++ " is not within expected config directory "
            ++ filepathJoin configDir "a", ?_⟩
          simp [LoadConfig, hu, ha, hp]
        | true =>
          refine ⟨"config file must have 0600 permissions, got "
            ++ goOctal info.perm, ?_⟩
          simp [LoadConfig, hu, ha, hp, hstat, hperm]

theorem config_file_perm_invariant_witness :
    (SaveConfig (fun _ => Except.ok "data") "cfg.yaml" cfgEmpty
          = Except.ok ⟨"cfg.yaml", "data", 0o600⟩
        ∧ (⟨"cfg.yaml", "data", 0o600⟩ : FileWrite).perm = 0o600)
      ∧ (envEx.stat "cfg.yaml" = Except.ok ⟨0o644⟩
        ∧ (0o644 : Nat) ≠ 0o600
        ∧ ∃ msg, LoadConfig envEx "cfg.yaml" = Except.error msg) :=
  ⟨⟨rfl,
      config_file_perm_invariant.1 (fun _ => Except.ok "data") "cfg.yaml" cfgEmpty
        ⟨"cfg.yaml", "data", 0o600⟩ rfl⟩,
    ⟨rfl, by decide,
      config_file_perm_invariant.2 envEx "cfg.yaml" ⟨0o644⟩ rfl (by decide)⟩⟩

/-- C9: collectRecipients never returns an error, whatever happens around
the GitHub key fetch, and the recipient list it returns is always the
configured default recipients, then the flag recipients, then the fetched
GitHub keys, which are empty whenever the resolved user is empty or
invalid, the fetch fails, the body is unreadable or fails to close, or the
status is not 200. -/
theorem collectRecipients_never_fails (httpGet : String → Except String HttpResponse)
    (cfg : Config) (recipients : List String) (ghUserFlag : String) :
    (collectRecipients httpGet cfg recipients ghUserFlag).2.2 = none
      ∧ (collectRecipients httpGet cfg recipients ghUserFlag).2.1
          = resolveGhUser ghUserFlag cfg
      ∧ (collectRecipients httpGet cfg recipients ghUserFlag).1
          = cfg.DefaultRecipients ++ recipients
              ++ fetchedKeys httpGet (resolveGhUser ghUserFlag cfg) := by
  simp only [collectRecipients, fetchedKeys, resolveGhUser]
  generalize (if ghUserFlag = "" ∧ cfg.GitHubUser ≠ "" then cfg.GitHubUser
      else ghUserFlag) = gh
  by_cases hu : gh = ""
  · simp [hu]
  · cases hv : validGitHubUser gh with
    | false => simp [hu, hv]
    | true =>
      cases hurl : (!(goHasPrefix ("https://github.com/" ++ gh ++ ".keys")
            "https://github.com/")
          || !(goHasSuffix ("https://github.com/" ++ gh ++ ".keys") ".keys")) with
      | true => simp [hu, hv, hurl]
      | false =>
        cases hresp : httpGet ("https://github.com/" ++ gh ++ ".keys") with
        | error e => simp [hu, hv, hurl, hresp]
        | ok resp =>
          by_cases hs : resp.statusCode = 200
          · cases hb : resp.body with
            | error e => simp [hu, hv, hurl, hresp, hs, hb, List.append_assoc]
            | ok body =>
              cases hcl : resp.closeErr with
              | none => simp [hu, hv, hurl, hresp, hs, hb, hcl, List.append_assoc]
              | some e => simp [hu, hv, hurl, hresp, hs, hb, hcl, List.append_assoc]
          · simp [hu, hv, hurl, hresp, hs, List.append_assoc]

theorem tryAllKeys_sequential_trial_witness :
    ((tryAllKeys ageFailAll ["k1", "k2"] "in.age" "out.txt" []).1 = true ↔
        ∃ k ∈ ["k1", "k2"], tryDecrypt ageFailAll k "out.txt" "in.age" = none)
      ∧ ((tryAllKeys ageFailAll ["k1", "k2"] "in.age" "out.txt" []).1 = false ↔
          ∀ k ∈ ["k1", "k2"], tryDecrypt ageFailAll k "out.txt" "in.age" ≠ none)
      ∧ (tryAllKeys ageFailAll ["k1", "k2"] "in.age" "out.txt" []).2
          = []
            ++ ["k1", "k2"].takeWhile
                (fun k => (tryDecrypt ageFailAll k "out.txt" "in.age").isSome)
            ++ (["k1", "k2"].dropWhile
                (fun k => (tryDecrypt ageFailAll k "out.txt" "in.age").isSome)).take 1 :=
  tryAllKeys_sequential_trial ageFailAll ["k1", "k2"] "in.age" "out.txt" []

theorem scan_returns_filtered_listing_witness :
    ScanSSHPrivateKeys "/home/user"
        (Except.ok [DirEntry.mk "id_rsa" false, DirEntry.mk "known_hosts" false])
      = Except.map (fun files =>
          (files.filter (fun f => !f.isDir
              && (goHasPrefix f.name "id_" && !(goHasSuffix f.name ".pub")))).map
            (fun f => filepathJoin (filepathJoin "/home/user" ".ssh") f.name))
          (Except.ok [DirEntry.mk "id_rsa" false, DirEntry.mk "known_hosts" false]) :=
  scan_returns_filtered_listing "/home/user"
    (Except.ok [DirEntry.mk "id_rsa" false, DirEntry.mk "known_hosts" false])

theorem collectRecipients_never_fails_witness :
    (collectRecipients httpGetFail cfgEmpty ["r1.pub"] "octocat").2.2 = none
      ∧ (collectRecipients httpGetFail cfgEmpty ["r1.pub"] "octocat").2.1
          = resolveGhUser "octocat" cfgEmpty
      ∧ (collectRecipients httpGetFail cfgEmpty ["r1.pub"] "octocat").1
          = cfgEmpty.DefaultRecipients ++ ["r1.pub"]
              ++ fetchedKeys httpGetFail (resolveGhUser "octocat" cfgEmpty) :=
  collectRecipients_never_fails httpGetFail cfgEmpty ["r1.pub"] "octocat"

end AgeCLI
